import Mathlib

/-!
Shallow embedding of the FMEA risk-assessment app (`src/fmea_app.py`).

The computational core of the script is:
* the per-entry validation loop (lines 54-65): trim each name, record an
  error for empty names, substitute the fallback name "Variable N";
* duplicate-name detection (lines 67-70);
* the hard stop on any validation error (lines 72-76);
* the scored table with `RPN = Severity * Occurrence * Detectability`
  (line 87) and the `risk_level` classifier (lines 90-96);
* the heatmap pivot table, grouping by (Severity, Occurrence) and taking
  the mean RPN (line 105) — a pandas pivot table whose index is the set of
  observed severities and whose columns are the observed occurrences, with
  NaN (here `none`) in cells of the cross product that have no entries;
* the DoE partition `doe_vars` / `low_vars` (lines 113 and 123).
-/

namespace FMEA

/-- One raw input record, as collected by the UI for slot `i`:
a candidate name and the three slider ratings. -/
structure RawEntry where
  name : String
  sev : Nat
  occ : Nat
  det : Nat
deriving DecidableEq, Repr

/-- The fallback display name `f"Variable {i+1}"` for 0-based slot `i`
(line 62 of the source). -/
def fallbackName (i : Nat) : String :=
  "Variable " ++ toString (i + 1)

/-- The error message recorded for an empty name in 0-based slot `i`
(line 61 of the source). -/
def emptyNameMsg (i : Nat) : String :=
  "Variable " ++ toString (i + 1) ++ " name cannot be empty or whitespace."

/-- Python `str.strip`: drop leading and trailing whitespace.  Embedded
structurally, via `List.dropWhile` on the character list, so that concrete
instances reduce; `Char.isWhitespace` covers the whitespace characters
relevant here. -/
def strip (s : String) : String :=
  ⟨(((s.data.dropWhile Char.isWhitespace).reverse).dropWhile
      Char.isWhitespace).reverse⟩

/-- Line 62: `var_name.strip() if var_name.strip() else f"Variable {i+1}"`. -/
def processedName (i : Nat) (s : String) : String :=
  if strip s = "" then fallbackName i else strip s

/-- The validation loop of lines 54-65, started at slot index `i`:
returns the list of empty-name error messages (in entry order) and the
list of processed names (`variables` in the source). -/
def collectFrom : Nat → List RawEntry → List String × List String
  | _, [] => ([], [])
  | i, e :: rest =>
    ((if strip e.name = "" then [emptyNameMsg i] else []) ++
        (collectFrom (i + 1) rest).1,
     processedName i e.name :: (collectFrom (i + 1) rest).2)

/-- The empty-name error messages accumulated by the loop, in entry order. -/
def emptyNameErrors (entries : List RawEntry) : List String :=
  (collectFrom 0 entries).1

/-- The `variables` list built by the loop (trimmed names, with the
fallback substituted for empty ones). -/
def varNames (entries : List RawEntry) : List String :=
  (collectFrom 0 entries).2

/-- Line 68: `[var for var in set(variables) if variables.count(var) > 1]`.
`set(variables)` is embedded as `List.dedup` (Python set iteration order is
unspecified; only the underlying set matters to the program's behaviour). -/
def duplicates (vars : List String) : List String :=
  vars.dedup.filter fun v => decide (1 < vars.count v)

/-- Python `", ".join`. -/
def joinComma : List String → String
  | [] => ""
  | [s] => s
  | s :: rest => s ++ ", " ++ joinComma rest

/-- The aggregate duplicate-names error message of line 70. -/
def dupMsg (d : List String) : String :=
  "Duplicate variable names found: " ++ joinComma d

/-- The full `validation_errors` list (lines 52-70): per-entry empty-name
errors in entry order, then the single duplicate-names error if any. -/
def validation_errors (entries : List RawEntry) : List String :=
  emptyNameErrors entries ++
    (if (duplicates (varNames entries)).isEmpty then []
     else [dupMsg (duplicates (varNames entries))])

/-- Line 87: the RPN column, `Severity * Occurrence * Detectability`. -/
def rpnOf (e : RawEntry) : Nat :=
  e.sev * e.occ * e.det

/-- The `risk_level` function of lines 90-96, verbatim. -/
def risk_level (rpn : Nat) : String :=
  if rpn ≤ 100 then "Low"
  else if 101 ≤ rpn ∧ rpn ≤ 200 then "Medium"
  else "High"

/-- One row of the scored DataFrame (lines 79-98). -/
structure ScoredRow where
  name : String
  severity : Nat
  occurrence : Nat
  detectability : Nat
  rpn : Nat
  level : String
deriving DecidableEq, Repr

/-- The scored DataFrame `df` after lines 79-98: one row per entry, in
input order, with the RPN and Risk Level columns filled in. -/
def scoreTable (entries : List RawEntry) : List ScoredRow :=
  ((varNames entries).zip entries).map fun p =>
    { name := p.1
      severity := p.2.sev
      occurrence := p.2.occ
      detectability := p.2.det
      rpn := rpnOf p.2
      level := risk_level (rpnOf p.2) }

/-- The RPN values of the rows in the (Severity, Occurrence) group `(s, o)`. -/
def groupRPNs (rows : List ScoredRow) (s o : Nat) : List Nat :=
  (rows.filter fun r => r.severity == s && r.occurrence == o).map
    fun r => r.rpn

/-- The value of one pivot-table cell: the mean RPN of the group, or
`none` (pandas NaN) when the group is empty. -/
def cellMean (rows : List ScoredRow) (s o : Nat) : Option Rat :=
  if (groupRPNs rows s o).isEmpty then none
  else some ((((groupRPNs rows s o).map fun n => (n : Rat)).sum) /
    ((groupRPNs rows s o).length : Rat))

/-- The key set of the pivot table of line 105: pandas builds the cross
product of the observed severities (index) and observed occurrences
(columns). -/
def heatmapKeys (rows : List ScoredRow) : List (Nat × Nat) :=
  ((rows.map fun r => r.severity).dedup).flatMap fun s =>
    ((rows.map fun r => r.occurrence).dedup).map fun o => (s, o)

/-- Line 105: `df.pivot_table(index='Severity', columns='Occurrence',
values='RPN', aggfunc=np.mean)`, as the association list of cells keyed by
(severity, occurrence); unobserved cells of the cross product hold `none`
(NaN). -/
def heatmap_data (rows : List ScoredRow) : List ((Nat × Nat) × Option Rat) :=
  (heatmapKeys rows).map fun k => (k, cellMean rows k.1 k.2)

/-- Line 113: `df[df["Risk Level"].isin(["Medium", "High"])]`. -/
def doe_vars (rows : List ScoredRow) : List ScoredRow :=
  rows.filter fun r => r.level == "Medium" || r.level == "High"

/-- Line 123: `df[df["Risk Level"] == "Low"]`. -/
def low_vars (rows : List ScoredRow) : List ScoredRow :=
  rows.filter fun r => r.level == "Low"

/-- Everything the script produces after a successful validation. -/
structure RunOutput where
  table : List ScoredRow
  heatmap : List ((Nat × Nat) × Option Rat)
  doe : List ScoredRow
  low : List ScoredRow
deriving DecidableEq, Repr

/-- The whole run: validation first; on any error the script stops
(`st.stop()`, line 76) having emitted only the ordered error list, and
nothing downstream is computed; otherwise the scored table, heatmap and
DoE partition are produced. -/
def run (entries : List RawEntry) : Except (List String) RunOutput :=
  if (validation_errors entries).isEmpty then
    let rows := scoreTable entries
    Except.ok
      { table := rows
        heatmap := heatmap_data rows
        doe := doe_vars rows
        low := low_vars rows }
  else
    Except.error (validation_errors entries)

/-! ### Helper lemmas about the validation loop -/

theorem collectFrom_snd_length (k : Nat) (l : List RawEntry) :
    (collectFrom k l).2.length = l.length := by
  induction l generalizing k with
  | nil => rfl
  | cons e rest ih => simp [collectFrom, ih]

theorem varNames_length (entries : List RawEntry) :
    (varNames entries).length = entries.length :=
  collectFrom_snd_length 0 entries

theorem collectFrom_snd_getElem (l : List RawEntry) (k i : Nat) :
    (collectFrom k l).2[i]? =
      (l[i]?).map fun e => processedName (k + i) e.name := by
  induction l generalizing k i with
  | nil => rfl
  | cons e rest ih =>
    cases i with
    | zero => simp [collectFrom]
    | succ n =>
      have hkn : k + 1 + n = k + (n + 1) := by omega
      simp only [collectFrom, List.getElem?_cons_succ, ih, hkn]

theorem collectFrom_fst_mem (l : List RawEntry) (k i : Nat) (e : RawEntry)
    (he : l[i]? = some e) (h : strip e.name = "") :
    emptyNameMsg (k + i) ∈ (collectFrom k l).1 := by
  induction l generalizing k i with
  | nil => simp at he
  | cons a rest ih =>
    cases i with
    | zero =>
      simp only [List.getElem?_cons_zero, Option.some.injEq] at he
      subst he
      simp [collectFrom, h]
    | succ n =>
      simp only [List.getElem?_cons_succ] at he
      have hkn : k + (n + 1) = k + 1 + n := by omega
      rw [hkn]
      exact List.mem_append_right _ (ih (k + 1) n he)

theorem validation_errors_of_dup {entries : List RawEntry}
    (h : duplicates (varNames entries) ≠ []) :
    validation_errors entries =
      emptyNameErrors entries ++ [dupMsg (duplicates (varNames entries))] := by
  have hne : (duplicates (varNames entries)).isEmpty = false :=
    List.isEmpty_eq_false.mpr h
  unfold validation_errors
  rw [hne]
  simp

/-- Two distinct positions holding the same value force a count of at
least two. -/
theorem two_le_count_of_getElem {α : Type} [BEq α] [LawfulBEq α] (a : α)
    (l : List α) (i j : Nat) (hij : i ≠ j) (hi : l[i]? = some a)
    (hj : l[j]? = some a) : 2 ≤ l.count a := by
  induction l generalizing i j with
  | nil => simp at hi
  | cons b t ih =>
    cases i with
    | zero =>
      cases j with
      | zero => exact absurd rfl hij
      | succ m =>
        simp only [List.getElem?_cons_zero, Option.some.injEq] at hi
        simp only [List.getElem?_cons_succ] at hj
        subst hi
        have hm : b ∈ t := List.mem_iff_getElem?.mpr ⟨m, hj⟩
        have hc := List.count_pos_iff.mpr hm
        rw [List.count_cons_self]
        omega
    | succ n =>
      cases j with
      | zero =>
        simp only [List.getElem?_cons_zero, Option.some.injEq] at hj
        simp only [List.getElem?_cons_succ] at hi
        subst hj
        have hm : b ∈ t := List.mem_iff_getElem?.mpr ⟨n, hi⟩
        have hc := List.count_pos_iff.mpr hm
        rw [List.count_cons_self]
        omega
      | succ m =>
        simp only [List.getElem?_cons_succ] at hi hj
        have h2 := ih n m (by omega) hi hj
        rw [List.count_cons]
        split <;> omega

/-! ### Helper lemmas about scoring and the pivot table -/

theorem scoreTable_length (entries : List RawEntry) :
    (scoreTable entries).length = entries.length := by
  unfold scoreTable
  rw [List.length_map, List.length_zip, varNames_length]
  exact Nat.min_self _

theorem scoreTable_level {entries : List RawEntry} {r : ScoredRow}
    (h : r ∈ scoreTable entries) : r.level = risk_level r.rpn := by
  unfold scoreTable at h
  rcases List.mem_map.mp h with ⟨p, -, rfl⟩
  rfl

theorem risk_level_mem (n : Nat) :
    risk_level n = "Low" ∨ risk_level n = "Medium" ∨ risk_level n = "High" := by
  unfold risk_level
  split_ifs <;> simp

/-- Looking a key up in an association list built over a key list finds
the associated value as soon as the key occurs. -/
theorem lookup_map_key {α β : Type _} [BEq α] [LawfulBEq α] (f : α → β)
    (p : α) (ks : List α) (hp : p ∈ ks) :
    (ks.map fun k => (k, f k)).lookup p = some (f p) := by
  induction ks with
  | nil => exact absurd hp (List.not_mem_nil p)
  | cons k t ih =>
    rw [List.map_cons, List.lookup_cons]
    cases hbeq : p == k with
    | true =>
      have : p = k := eq_of_beq hbeq
      subst this
      rfl
    | false =>
      rcases List.mem_cons.mp hp with rfl | hpt
      · rw [beq_self_eq_true] at hbeq
        exact absurd hbeq (by simp)
      · exact ih hpt

theorem heatmap_data_keys (rows : List ScoredRow) :
    (heatmap_data rows).map Prod.fst = heatmapKeys rows := by
  unfold heatmap_data
  rw [List.map_map]
  have hcomp : (Prod.fst ∘ fun k => (k, cellMean rows k.1 k.2)) =
      (id : Nat × Nat → Nat × Nat) := funext fun k => rfl
  rw [hcomp, List.map_id]

theorem mem_heatmapKeys (rows : List ScoredRow) (s o : Nat) :
    (s, o) ∈ heatmapKeys rows ↔
      s ∈ rows.map (fun r => r.severity) ∧
        o ∈ rows.map (fun r => r.occurrence) := by
  unfold heatmapKeys
  rw [List.mem_flatMap]
  constructor
  · rintro ⟨a, ha, hb⟩
    rcases List.mem_map.mp hb with ⟨b, hbmem, heq⟩
    rw [Prod.mk.injEq] at heq
    obtain ⟨rfl, rfl⟩ := heq
    exact ⟨List.mem_dedup.mp ha, List.mem_dedup.mp hbmem⟩
  · rintro ⟨hs, ho⟩
    exact ⟨s, List.mem_dedup.mpr hs,
      List.mem_map.mpr ⟨o, List.mem_dedup.mpr ho, rfl⟩⟩

/-- Splitting a list along complementary Boolean predicates preserves the
total length. -/
theorem length_filter_partition {α : Type _} (p q : α → Bool) (l : List α)
    (h : ∀ a ∈ l, p a = !q a) :
    (l.filter p).length + (l.filter q).length = l.length := by
  induction l with
  | nil => rfl
  | cons a t ih =>
    have ha := h a (List.mem_cons_self a t)
    have ht : ∀ b ∈ t, p b = !q b := fun b hb => h b (List.mem_cons_of_mem a hb)
    have hiht := ih ht
    cases hq : q a with
    | true =>
      have hp : p a = false := by rw [ha, hq]; rfl
      simp only [List.filter_cons, hp, hq]
      simp only [Bool.false_eq_true, if_false, if_true, List.length_cons]
      omega
    | false =>
      have hp : p a = true := by rw [ha, hq]; rfl
      simp only [List.filter_cons, hp, hq]
      simp only [Bool.false_eq_true, if_false, if_true, List.length_cons]
      omega

theorem fallbackName_ne_empty (i : Nat) : fallbackName i ≠ "" := by
  intro h
  unfold fallbackName at h
  have hd := congrArg String.data h
  rw [String.data_append] at hd
  have h0 : ("" : String).data = [] := rfl
  rw [h0] at hd
  rcases List.append_eq_nil.mp hd with ⟨h1, -⟩
  exact absurd h1 (by decide)

/-! ### The claims -/

/-- C1: for every entry whose severity, occurrence and detectability are
integers in [1, 10], the computed RPN equals
`severity * occurrence * detectability`, and this value always satisfies
`1 ≤ rpn ≤ 1000` — never zero or negative. -/
theorem claim_C1 (e : RawEntry) (h1 : 1 ≤ e.sev) (h2 : e.sev ≤ 10)
    (h3 : 1 ≤ e.occ) (h4 : e.occ ≤ 10) (h5 : 1 ≤ e.det) (h6 : e.det ≤ 10) :
    rpnOf e = e.sev * e.occ * e.det ∧ 1 ≤ rpnOf e ∧ rpnOf e ≤ 1000 := by
  refine ⟨rfl, ?_, ?_⟩
  · calc (1 : Nat) = 1 * 1 * 1 := rfl
      _ ≤ e.sev * e.occ * e.det := Nat.mul_le_mul (Nat.mul_le_mul h1 h3) h5
      _ = rpnOf e := rfl
  · calc rpnOf e = e.sev * e.occ * e.det := rfl
      _ ≤ 10 * 10 * 10 := Nat.mul_le_mul (Nat.mul_le_mul h2 h4) h6
      _ = 1000 := rfl

theorem claim_C1_witness :
    rpnOf ⟨"Temp", 8, 8, 8⟩ = 8 * 8 * 8 ∧
      1 ≤ rpnOf ⟨"Temp", 8, 8, 8⟩ ∧ rpnOf ⟨"Temp", 8, 8, 8⟩ ≤ 1000 :=
  claim_C1 ⟨"Temp", 8, 8, 8⟩ (by decide) (by decide) (by decide) (by decide)
    (by decide) (by decide)

/-- C2: the risk-level classifier maps every RPN by the exact thresholds
`rpn ≤ 100 → Low`, `100 < rpn ≤ 200 → Medium`, `rpn > 200 → High`; in
particular 100 → Low, 101 → Medium, 200 → Medium and 201 → High. -/
theorem claim_C2 (n : Nat) :
    (n ≤ 100 → risk_level n = "Low") ∧
    (100 < n → n ≤ 200 → risk_level n = "Medium") ∧
    (200 < n → risk_level n = "High") ∧
    (risk_level 100 = "Low" ∧ risk_level 101 = "Medium" ∧
      risk_level 200 = "Medium" ∧ risk_level 201 = "High") := by
  refine ⟨fun h => ?_, fun h1 h2 => ?_, fun h => ?_,
    by decide, by decide, by decide, by decide⟩
  all_goals unfold risk_level
  all_goals split_ifs <;> first | rfl | (exfalso; omega)

theorem claim_C2_witness :
    risk_level 100 = "Low" ∧ risk_level 150 = "Medium" ∧
      risk_level 201 = "High" :=
  ⟨(claim_C2 100).1 (by decide),
   (claim_C2 150).2.1 (by decide) (by decide),
   (claim_C2 201).2.2.1 (by decide)⟩

/-- C3: if any validation error is recorded, the run halts before
computing anything downstream: the result is exactly the ordered list of
error messages, and no scored table, heatmap aggregate or DoE
recommendation is produced. -/
theorem claim_C3 (entries : List RawEntry)
    (h : validation_errors entries ≠ []) :
    run entries = Except.error (validation_errors entries) := by
  have hne : (validation_errors entries).isEmpty = false :=
    List.isEmpty_eq_false.mpr h
  unfold run
  rw [hne]
  simp

def exC3 : List RawEntry := [⟨" ", 1, 1, 1⟩]

theorem claim_C3_witness :
    run exC3 = Except.error (validation_errors exC3) :=
  claim_C3 exC3 (by decide)

/-- C4: an entry whose name strips to the empty string yields a recorded
error naming its 1-based position, and the fallback name "Variable N" is
substituted at its slot, so the name list still covers every entry. -/
theorem claim_C4 (entries : List RawEntry) (i : Nat) (e : RawEntry)
    (he : entries[i]? = some e) (h : strip e.name = "") :
    emptyNameMsg i ∈ emptyNameErrors entries ∧
    (varNames entries).length = entries.length ∧
    (varNames entries)[i]? = some (fallbackName i) := by
  refine ⟨?_, varNames_length entries, ?_⟩
  · have hmem := collectFrom_fst_mem entries 0 i e he h
    simpa [emptyNameErrors] using hmem
  · unfold varNames
    rw [collectFrom_snd_getElem, he]
    simp [processedName, h]

def exC4 : List RawEntry := [⟨" ", 2, 3, 4⟩]

theorem claim_C4_witness :
    emptyNameMsg 0 ∈ emptyNameErrors exC4 ∧
    (varNames exC4).length = exC4.length ∧
    (varNames exC4)[0]? = some (fallbackName 0) :=
  claim_C4 exC4 0 ⟨" ", 2, 3, 4⟩ (by decide) (by decide)

def exC6 : List RawEntry :=
  [⟨"Temp", 5, 5, 5⟩, ⟨"", 5, 5, 5⟩, ⟨"Temp", 5, 5, 5⟩]

/-- C6: with 3 entries where entry 2 has an empty name and entries 1 and
3 are both named "Temp", the validator returns exactly two errors: the
empty-name error for position 2 followed by the duplicate-name error
listing "Temp". -/
theorem claim_C6 :
    validation_errors exC6 =
      ["Variable 2 name cannot be empty or whitespace.",
       "Duplicate variable names found: Temp"] := by decide

/-- C5: after all entries are processed, a name occurring more than once
produces exactly one aggregate duplicate error, appended after all
per-entry empty-name errors, and each duplicated name is listed once in
it (the duplicate list has no repeats and holds exactly the names with
count above one). -/
theorem claim_C5 (entries : List RawEntry) :
    (duplicates (varNames entries)).Nodup ∧
    (∀ v, v ∈ duplicates (varNames entries) ↔
      1 < (varNames entries).count v) ∧
    (duplicates (varNames entries) ≠ [] →
      validation_errors entries =
        emptyNameErrors entries ++
          [dupMsg (duplicates (varNames entries))]) := by
  refine ⟨List.Nodup.filter _ (List.nodup_dedup _), fun v => ?_,
    fun h => validation_errors_of_dup h⟩
  unfold duplicates
  rw [List.mem_filter, List.mem_dedup, decide_eq_true_eq]
  constructor
  · exact fun hp => hp.2
  · intro hc
    exact ⟨List.count_pos_iff.mp (by omega), hc⟩

def exC5 : List RawEntry := [⟨"Temp", 1, 1, 1⟩, ⟨"Temp", 2, 2, 2⟩]

theorem claim_C5_witness :
    ("Temp" ∈ duplicates (varNames exC5)) ∧
    validation_errors exC5 =
      emptyNameErrors exC5 ++ [dupMsg (duplicates (varNames exC5))] :=
  ⟨((claim_C5 exC5).2.1 "Temp").mpr (by decide),
   (claim_C5 exC5).2.2 (by decide)⟩

/-- C7: for every validated scored set, the DoE-suggested subset is
exactly the Medium/High rows kept in original input order, the low-risk
subset exactly the Low rows in original input order, the two subsets are
disjoint and their sizes sum to the total number of entries. -/
theorem claim_C7 (entries : List RawEntry)
    (_hvalid : validation_errors entries = []) :
    (∀ r, r ∈ doe_vars (scoreTable entries) ↔
        r ∈ scoreTable entries ∧ (r.level = "Medium" ∨ r.level = "High")) ∧
    (∀ r, r ∈ low_vars (scoreTable entries) ↔
        r ∈ scoreTable entries ∧ r.level = "Low") ∧
    List.Sublist (doe_vars (scoreTable entries)) (scoreTable entries) ∧
    List.Sublist (low_vars (scoreTable entries)) (scoreTable entries) ∧
    (∀ r, ¬(r ∈ doe_vars (scoreTable entries) ∧
        r ∈ low_vars (scoreTable entries))) ∧
    (doe_vars (scoreTable entries)).length +
        (low_vars (scoreTable entries)).length =
      (scoreTable entries).length := by
  refine ⟨fun r => ?_, fun r => ?_, List.filter_sublist _,
    List.filter_sublist _, fun r hr => ?_, ?_⟩
  · unfold doe_vars
    rw [List.mem_filter]
    simp
  · unfold low_vars
    rw [List.mem_filter]
    simp
  · obtain ⟨hd, hl⟩ := hr
    unfold doe_vars at hd
    unfold low_vars at hl
    rw [List.mem_filter] at hd hl
    have h1 := hd.2
    have h2 := hl.2
    simp only [Bool.or_eq_true, beq_iff_eq] at h1 h2
    rcases h1 with h1 | h1 <;> rw [h2] at h1 <;> exact absurd h1 (by decide)
  · unfold doe_vars low_vars
    apply length_filter_partition
    intro r hrmem
    have hlev := scoreTable_level hrmem
    rcases risk_level_mem r.rpn with h | h | h <;> (rw [hlev, h]; decide)

def exC7 : List RawEntry := [⟨"Temp", 8, 8, 8⟩, ⟨"Humidity", 2, 2, 2⟩]

theorem claim_C7_witness :
    (doe_vars (scoreTable exC7)).length +
        (low_vars (scoreTable exC7)).length =
      (scoreTable exC7).length ∧
    List.Sublist (doe_vars (scoreTable exC7)) (scoreTable exC7) :=
  ⟨(claim_C7 exC7 (by decide)).2.2.2.2.2, (claim_C7 exC7 (by decide)).2.2.1⟩

/-- C10: fallback names participate in duplicate detection: if the entry
at 0-based slot i strips to empty (so it receives the fallback name
"Variable (i+1)") and a distinct entry strips to exactly that name, the
run reports the duplicate error and the fallback name is among the
duplicated names listed. -/
theorem claim_C10 (entries : List RawEntry) (i j : Nat) (ei ej : RawEntry)
    (hij : i ≠ j) (hi : entries[i]? = some ei) (hj : entries[j]? = some ej)
    (hempty : strip ei.name = "") (hname : strip ej.name = fallbackName i) :
    fallbackName i ∈ duplicates (varNames entries) ∧
    validation_errors entries =
      emptyNameErrors entries ++ [dupMsg (duplicates (varNames entries))] := by
  have hvi : (varNames entries)[i]? = some (fallbackName i) := by
    unfold varNames
    rw [collectFrom_snd_getElem, hi]
    simp [processedName, hempty]
  have hvj : (varNames entries)[j]? = some (fallbackName i) := by
    unfold varNames
    rw [collectFrom_snd_getElem, hj]
    have hne : ¬(strip ej.name = "") := by
      rw [hname]; exact fallbackName_ne_empty i
    have hpn : processedName j ej.name = fallbackName i := by
      unfold processedName
      rw [if_neg hne, hname]
    simp [hpn]
  have hcount : 2 ≤ (varNames entries).count (fallbackName i) :=
    two_le_count_of_getElem (fallbackName i) (varNames entries) i j hij hvi hvj
  have hmem : fallbackName i ∈ duplicates (varNames entries) := by
    unfold duplicates
    rw [List.mem_filter, List.mem_dedup, decide_eq_true_eq]
    exact ⟨List.count_pos_iff.mp (by omega), by omega⟩
  exact ⟨hmem, validation_errors_of_dup (List.ne_nil_of_mem hmem)⟩

def exC10 : List RawEntry := [⟨"", 1, 1, 1⟩, ⟨"Variable 1", 1, 1, 1⟩]

theorem claim_C10_witness :
    fallbackName 0 ∈ duplicates (varNames exC10) ∧
    validation_errors exC10 =
      emptyNameErrors exC10 ++ [dupMsg (duplicates (varNames exC10))] :=
  claim_C10 exC10 0 1 ⟨"", 1, 1, 1⟩ ⟨"Variable 1", 1, 1, 1⟩ (by decide)
    (by decide) (by decide) (by decide) (by decide)

/-- C8: for every (severity, occurrence) pair observed in the scored set,
the heatmap aggregate cell for that pair is present and equals the
arithmetic mean of the RPN values of the rows sharing that pair. -/
theorem claim_C8 (rows : List ScoredRow) (s o : Nat)
    (h : ∃ r ∈ rows, r.severity = s ∧ r.occurrence = o) :
    (heatmap_data rows).lookup (s, o) =
      some (some ((((groupRPNs rows s o).map fun n => (n : Rat)).sum) /
        ((groupRPNs rows s o).length : Rat))) := by
  obtain ⟨r, hr, hs, ho⟩ := h
  have hkey : (s, o) ∈ heatmapKeys rows :=
    (mem_heatmapKeys rows s o).mpr
      ⟨List.mem_map.mpr ⟨r, hr, hs⟩, List.mem_map.mpr ⟨r, hr, ho⟩⟩
  have hne : (groupRPNs rows s o).isEmpty = false := by
    apply List.isEmpty_eq_false.mpr
    apply List.ne_nil_of_mem
    show r.rpn ∈ groupRPNs rows s o
    unfold groupRPNs
    exact List.mem_map.mpr ⟨r, List.mem_filter.mpr ⟨hr, by simp [hs, ho]⟩, rfl⟩
  have hcm : cellMean rows s o =
      some ((((groupRPNs rows s o).map fun n => (n : Rat)).sum) /
        ((groupRPNs rows s o).length : Rat)) := by
    unfold cellMean
    rw [hne]
    simp
  calc (heatmap_data rows).lookup (s, o)
      = some (cellMean rows s o) := by
        unfold heatmap_data
        exact lookup_map_key _ (s, o) (heatmapKeys rows) hkey
    _ = some (some ((((groupRPNs rows s o).map fun n => (n : Rat)).sum) /
        ((groupRPNs rows s o).length : Rat))) := by rw [hcm]

def exC8 : List RawEntry := [⟨"A", 5, 5, 5⟩, ⟨"B", 5, 5, 7⟩]

theorem claim_C8_witness :
    (heatmap_data (scoreTable exC8)).lookup (5, 5) =
      some (some (150 : Rat)) := by
  have h := claim_C8 (scoreTable exC8) 5 5 (by decide)
  rw [h]
  have hg : groupRPNs (scoreTable exC8) 5 5 = [125, 175] := by decide
  rw [hg]
  simp
  norm_num

def exC9 : List RawEntry := [⟨"A", 5, 5, 5⟩, ⟨"B", 6, 6, 6⟩]

/-- C9 as stated fails on the code: with entries at (5, 5) and (6, 6)
only, the pair (5, 6) has no observed entries, yet it appears as a key of
the pivot table — pandas emits the cross product of observed severities
and observed occurrences, with NaN (null) in unobserved cells. -/
theorem claim_C9_counterexample :
    ((scoreTable exC9).all fun r =>
      !(r.severity == 5 && r.occurrence == 6)) = true ∧
    (5, 6) ∈ (heatmap_data (scoreTable exC9)).map Prod.fst := by
  constructor
  · decide
  · rw [heatmap_data_keys]
    decide

/-- C9 (amended): a pair (s, o) appears as a key of the heatmap aggregate
iff s is the severity of some entry and o is the occurrence of some
(possibly different) entry; a keyed pair that no single entry realises
carries the null value `none` (NaN), never zero or any number.  In
particular a pair whose severity or occurrence is entirely unobserved is
absent. -/
theorem claim_C9 (rows : List ScoredRow) (s o : Nat)
    (h : ∀ r ∈ rows, ¬(r.severity = s ∧ r.occurrence = o)) :
    ((s, o) ∈ (heatmap_data rows).map Prod.fst ↔
      s ∈ rows.map (fun r => r.severity) ∧
        o ∈ rows.map (fun r => r.occurrence)) ∧
    (∀ v, ((s, o), v) ∈ heatmap_data rows → v = none) := by
  constructor
  · rw [heatmap_data_keys]
    exact mem_heatmapKeys rows s o
  · intro v hv
    unfold heatmap_data at hv
    rcases List.mem_map.mp hv with ⟨k, -, heq⟩
    rw [Prod.mk.injEq] at heq
    obtain ⟨rfl, hv2⟩ := heq
    have hfil : (rows.filter fun r =>
        r.severity == s && r.occurrence == o) = [] :=
      List.filter_eq_nil_iff.mpr (by
        intro r hr hb
        simp only [Bool.and_eq_true, beq_iff_eq] at hb
        exact h r hr hb)
    have hemp : groupRPNs rows s o = [] := by
      unfold groupRPNs
      rw [hfil]
      rfl
    have hnone : cellMean rows s o = none := by
      unfold cellMean
      rw [hemp]
      rfl
    have hv3 : cellMean rows s o = v := hv2
    rw [hv3] at hnone
    exact hnone

theorem claim_C9_witness :
    (5, 6) ∈ (heatmap_data (scoreTable exC9)).map Prod.fst :=
  ((claim_C9 (scoreTable exC9) 5 6 (by decide)).1).mpr (by decide)

end FMEA
